import Mathlib

/-!
Verification of the cell-directive engine of the gonb Jupyter kernel
(package `specialcmd`, file `specialcmd.go`), together with a model of
the source assembler described by the design document.

The Go code is shallowly embedded:

* `splitCmd`, `joinLine`, `Parse`, `execInternal` and `execShell` are
  translated line by line from `specialcmd.go`.  Go strings are indexed
  by bytes there; every input handled here is ASCII, so `List Char` /
  `String` is a faithful carrier.
* Go runtime panics (out-of-range string indexing, failing type
  assertions) are modelled by `Option`-style results: a `none` result,
  or a `panicked := true` flag, marks a program point where the Go code
  would panic.
* External side effects (environment mutation, shell execution,
  publishing to Jupyter, klog logging) are recorded in an ordered
  `Effect` list; the outcomes of fallible external calls are supplied
  by an `Oracle` of result functions, so that the control flow of the
  Go code can be followed for any behaviour of the outside world.
-/

namespace Gonb

/-- Errors returned by Go functions (`errors.Errorf` builds a message,
`errors.Wrapf` wraps an inner error with a message). -/
inductive GoErr where
  | msg (s : String)
  | wrap (e : GoErr) (s : String)
  deriving DecidableEq, Repr

/-- `cellStatus` from `specialcmd.go`: temporary status for the execution of
the current cell. -/
structure CellStatus where
  withInputs : Bool
  withPassword : Bool
  deriving DecidableEq, Repr

/-- How a `!` shell command is run (plain, or after `%with_inputs` /
`%with_password`). -/
inductive ShellMode where
  | plain
  | inputs
  | password
  deriving DecidableEq, Repr

/-- Observable side effects of the directive engine, in program order.
Each constructor corresponds to one call the Go code makes into the
outside world (os, kernel, goexec, klog). -/
inductive Effect where
  | setArgs (args : List String)
  | setEnv (name value : String)
  | publishStdout (s : String)
  | publishStderr (s : String)
  | publishHelpMarkdown
  | logError (s : String)
  | chdir (dir : String)
  | setAutoGet (b : Bool)
  | resetDefs
  | goModInit
  | listDefs
  | removeDefs (keys : List String)
  | trackFiles (args : List String)
  | untrackFiles (args : List String)
  | goWorkFix
  | shellExec (cmd : String) (inTmpDir : Bool) (mode : ShellMode)
  | autoTrack
  deriving DecidableEq, Repr

/-- Results of the fallible external calls the directive engine makes.
`none` means the call succeeded, `some e` that it returned error `e`.
`getwd` is the directory reported by `os.Getwd`, `replaceTilde` models
`common.ReplaceTildeInDir`, `allowStdin` the `allow_stdin` field of the
Jupyter message content, and `publishFails` whether
`kernel.PublishWriteStream` returns an error. -/
structure Oracle where
  setenvErr : String → String → Option GoErr
  getwd : String
  replaceTilde : String → String
  chdirErr : String → Option GoErr
  shellErr : String → Option GoErr
  autoTrackErr : Option GoErr
  goModInitErr : Option GoErr
  goWorkFixErr : Option GoErr
  publishFails : Bool
  allowStdin : Bool

/-- Result of `execInternal` / `execShell`: whether the Go code panicked,
the returned error, the updated cell status, and the effects produced. -/
structure ExecRes where
  panicked : Bool
  err : Option GoErr
  status : CellStatus
  effects : List Effect
  deriving DecidableEq, Repr

/-- Record of one `joinLine` call made by `Parse`: the starting line and
the `usedLines` set right before and right after the call. -/
structure CallRec where
  start : ℕ
  before : Finset ℕ
  after : Finset ℕ
  deriving DecidableEq

/-- Result of `Parse`: whether the code panicked, whether it returned
early because a directive/shell command returned an error (`aborted`),
the value of the named return `err`, the final `usedLines` set, the
effects produced, and the trace of `joinLine` calls. -/
structure ParseRes where
  panicked : Bool
  aborted : Bool
  err : Option GoErr
  used : Finset ℕ
  effects : List Effect
  calls : List CallRec
  deriving DecidableEq

/-- Prepend a `joinLine` call record to a parse result. -/
def withCall (c : CallRec) (r : ParseRes) : ParseRes :=
  ⟨r.panicked, r.aborted, r.err, r.used, r.effects, c :: r.calls⟩

/-- Prepend effects (produced before a recursive `Parse` step) to a parse
result. -/
def withEffects (es : List Effect) (r : ParseRes) : ParseRes :=
  ⟨r.panicked, r.aborted, r.err, r.used, es ++ r.effects, r.calls⟩

/-- Loop body of `splitCmd` from `specialcmd.go`, one constructor case per
iteration over the bytes of `cmd`.  State: `partStarted`, `inQuotes`, the
current `part` and the accumulated `parts`, exactly as in the Go code. -/
def splitCmdCore : List Char → Bool → Bool → List Char → List (List Char) →
    List (List Char)
  | [], partStarted, _, part, parts =>
    if partStarted then parts ++ [part] else parts
  | c :: rest, partStarted, inQuotes, part, parts =>
    if ¬inQuotes ∧ (c = ' ' ∨ c = '\t' ∨ c = '\n') then
      splitCmdCore rest false inQuotes []
        (if partStarted then parts ++ [part] else parts)
    else if c = '"' then
      if inQuotes then splitCmdCore rest partStarted false part parts
      else splitCmdCore rest true true part parts
    else if c = '\\' ∧ inQuotes then
      match rest with
      | [] => if partStarted then parts ++ [part] else parts
      | c2 :: rest2 =>
        let c3 := if c2 = 'n' then '\n' else if c2 = 't' then '\t' else c2
        splitCmdCore rest2 true inQuotes (part ++ [c3]) parts
    else splitCmdCore rest true inQuotes (part ++ [c]) parts

/-- `splitCmd` from `specialcmd.go`: split a special command into its parts
separated by spaces, honouring double quotes and, inside quotes,
backslash escapes (`\n`, `\t`, and any other escaped character as
itself). -/
def splitCmd (cmd : String) : List String :=
  (splitCmdCore cmd.toList false false [] []).map String.mk

/-- Loop body of `joinLine` from `specialcmd.go`, iterating over the lines
from `fromLine` on (`rest` is the remaining suffix of the line list,
`idx` the index of its head in the original list).  Each line is appended
to `cmdStr` and its index inserted into `usedLines`; a trailing `\` is
replaced by a space and joining continues.  `none` models the Go panic on
`cmdStr[len(cmdStr)-1]` when `cmdStr` is empty. -/
def joinLineAux : List String → ℕ → List Char → Finset ℕ →
    Option (List Char × Finset ℕ)
  | [], _, cmdStr, used => some (cmdStr, used)
  | l :: ls, idx, cmdStr, used =>
    let cmdStr' := cmdStr ++ l.toList
    let used' := insert idx used
    match cmdStr'.getLast? with
    | none => none
    | some c =>
      if c = '\\' then joinLineAux ls (idx + 1) (cmdStr'.dropLast ++ [' ']) used'
      else some (cmdStr', used')

/-- `joinLine` from `specialcmd.go`: starting from `fromLine`, join
consecutive lines while the accumulated command ends in `\`, recording
the used line indices.  `none` models the Go out-of-range panic. -/
def joinLine (lines : List String) (fromLine : ℕ) (used : Finset ℕ) :
    Option (List Char × Finset ℕ) :=
  joinLineAux (lines.drop fromLine) fromLine [] used

/-- The `for cmdStr[0] == ' '` loop of `Parse` that skips the spaces after
the command sigil.  `none` models the Go panic: `cmdStr[0]` is evaluated
even when the string has become empty. -/
def skipInitialSpace : List Char → Option (List Char)
  | [] => none
  | c :: rest => if c = ' ' then skipInitialSpace rest else some (c :: rest)

/-- Models `protocol.GONB_DIR_ENV` (the environment variable `%cd` sets). -/
def gonbDirEnv : String := "GONB_DIR"

/-- Go `%q` rendering of a string without special characters. -/
def quoteGo (s : String) : String := "\"" ++ s ++ "\""

/-- The `switch parts[0]` dispatch of `execInternal` from `specialcmd.go`,
taking the already split parts.  The first component of the result marks
the Go panic on `parts[0]` when `splitCmd` returned no parts.  Branches
follow the Go `switch` case by case; external calls are answered by the
oracle and recorded as effects (an effect is recorded only when the call
actually mutates the outside world, i.e. when it succeeds). -/
def execInternalParts (o : Oracle) (status : CellStatus) (parts : List String) :
    ExecRes :=
  match parts with
  | [] => ⟨true, none, status, []⟩
  | p0 :: rest =>
    if p0 = "%" ∨ p0 = "main" ∨ p0 = "args" then
      -- goExec.Args = parts[1:]
      ⟨false, none, status, [Effect.setArgs rest]⟩
    else if p0 = "env" then
      match rest with
      | [name, value] =>
        match o.setenvErr name value with
        | some e => ⟨false, some (GoErr.wrap e "env failed"), status, []⟩
        | none =>
          ⟨false, none, status,
            [Effect.setEnv name value,
              Effect.publishStdout ("Set: " ++ name ++ "=" ++ quoteGo value ++ "\n")] ++
              (if o.publishFails then [Effect.logError "Failed to output"] else [])⟩
      | _ =>
        -- len(parts) != 3: syntax error returned to the caller.
        ⟨false,
          some (GoErr.msg ("%env takes 2 arguments, but " ++
            toString (parts.length - 1) ++ " were given")), status, []⟩
    else if p0 = "cd" then
      match rest with
      | [] =>
        -- publish error is discarded (`_ =`) in the Go code.
        ⟨false, none, status,
          [Effect.publishStdout ("Current directory: " ++ quoteGo o.getwd ++ "\n")]⟩
      | [d] =>
        match o.chdirErr (o.replaceTilde d) with
        | some e => ⟨false, some (GoErr.wrap e "cd failed"), status, []⟩
        | none =>
          ⟨false, none, status,
            [Effect.chdir (o.replaceTilde d),
              Effect.publishStdout ("Changed directory to " ++ quoteGo o.getwd ++ "\n")] ++
              (if o.publishFails then [Effect.logError "Failed to output"] else []) ++
              (match o.setenvErr gonbDirEnv o.getwd with
                | some _ => [Effect.logError "Failed to set environment variable"]
                | none => [Effect.setEnv gonbDirEnv o.getwd])⟩
      | _ =>
        -- len(parts) > 2: syntax error returned to the caller.
        ⟨false, some (GoErr.msg "%cd takes none or one argument"), status, []⟩
    else if p0 = "autoget" then ⟨false, none, status, [Effect.setAutoGet true]⟩
    else if p0 = "noautoget" then ⟨false, none, status, [Effect.setAutoGet false]⟩
    else if p0 = "help" then
      ⟨false, none, status,
        [Effect.publishHelpMarkdown] ++
          (if o.publishFails then [Effect.logError "Failed publishing help contents"] else [])⟩
    else if p0 = "reset" then
      match rest with
      | [] => ⟨false, o.goModInitErr, status, [Effect.resetDefs, Effect.goModInit]⟩
      | [x] =>
        if x = "go.mod" then ⟨false, o.goModInitErr, status, [Effect.goModInit]⟩
        else ⟨false, some (GoErr.msg "%reset only take one optional parameter go.mod"),
          status, []⟩
      | _ => ⟨false, some (GoErr.msg "%reset only take one optional parameter go.mod"),
          status, []⟩
    else if p0 = "ls" ∨ p0 = "list" then ⟨false, none, status, [Effect.listDefs]⟩
    else if p0 = "rm" ∨ p0 = "remove" then ⟨false, none, status, [Effect.removeDefs rest]⟩
    else if p0 = "with_inputs" then
      if ¬o.allowStdin ∧ (status.withInputs ∨ status.withPassword) then
        ⟨false, some (GoErr.msg "with_inputs not available in this notebook"), status, []⟩
      else ⟨false, none, ⟨true, status.withPassword⟩, []⟩
    else if p0 = "with_password" then
      if ¬o.allowStdin ∧ (status.withInputs ∨ status.withPassword) then
        ⟨false, some (GoErr.msg "with_password not available in this notebook"), status, []⟩
      else ⟨false, none, ⟨status.withInputs, true⟩, []⟩
    else if p0 = "track" then ⟨false, none, status, [Effect.trackFiles rest]⟩
    else if p0 = "untrack" then ⟨false, none, status, [Effect.untrackFiles rest]⟩
    else if p0 = "goworkfix" then ⟨false, o.goWorkFixErr, status, [Effect.goWorkFix]⟩
    else
      -- default: report to stderr, do not fail the run.
      ⟨false, none, status,
        [Effect.publishStderr (quoteGo ("%" ++ p0) ++ " unknown or not implemented yet.")] ++
          (if o.publishFails then
            [Effect.logError "Error while reporting back on unimplemented message command"]
           else [])⟩

/-- `execInternal` from `specialcmd.go`: split the command string and
dispatch on its first part. -/
def execInternal (o : Oracle) (status : CellStatus) (cmdStr : String) : ExecRes :=
  execInternalParts o status (splitCmd cmdStr)

/-- `execShell` from `specialcmd.go`: a leading `*` selects the temporary
directory; the command runs in `plain` / `inputs` / `password` mode
depending on the cell status, which is reset afterwards.  The panic flag
models `cmdStr[0]` on an empty command. -/
def execShell (o : Oracle) (status : CellStatus) (cmdStr : List Char) : ExecRes :=
  match cmdStr with
  | [] => ⟨true, none, status, []⟩
  | c :: rest =>
    let cmd := String.mk (if c = '*' then rest else c :: rest)
    let inTmp := c = '*'
    let mode :=
      if status.withInputs then ShellMode.inputs
      else if status.withPassword then ShellMode.password
      else ShellMode.plain
    ⟨false, o.shellErr cmd, ⟨false, false⟩, [Effect.shellExec cmd inTmp mode]⟩

/-- Loop of `Parse` from `specialcmd.go`, one fuel unit per line index.
`Parse` is always entered with `fuel = lines.length` and the fuel
decreases in lockstep with `n`, so the fuel never runs out before the
loop condition `n < len(lines)` fails.  State threaded through the loop:
the scan position `n`, the shared `usedLines` set, the `status` pointer
and the named return variable `err`. -/
def parseLoop (o : Oracle) (ex : Bool) (lines : List String) :
    ℕ → ℕ → Finset ℕ → CellStatus → Option GoErr → ParseRes
  | 0, _, used, _, err => ⟨false, false, err, used, [], []⟩
  | fuel + 1, n, used, status, err =>
    if h : n < lines.length then
      if n ∈ used then parseLoop o ex lines fuel (n + 1) used status err
      else
        let cs := (lines.get ⟨n, h⟩).toList
        if 1 < cs.length ∧ (cs.head? = some '%' ∨ cs.head? = some '!') then
          match joinLine lines n used with
          | none => ⟨true, false, err, used, [], []⟩
          | some (cmd, used') =>
            match cmd with
            | [] => ⟨true, false, err, used', [], [⟨n, used, used'⟩]⟩
            | cmdType :: afterSigil =>
              match skipInitialSpace afterSigil with
              | none => ⟨true, false, err, used', [], [⟨n, used, used'⟩]⟩
              | some body =>
                if body.isEmpty then
                  -- `continue`: skip empty commands.
                  withCall ⟨n, used, used'⟩
                    (parseLoop o ex lines fuel (n + 1) used' status err)
                else if ex then
                  if cmdType = '%' then
                    let r := execInternal o status (String.mk body)
                    if r.panicked then ⟨true, false, err, used', r.effects, [⟨n, used, used'⟩]⟩
                    else
                      match r.err with
                      | some e => ⟨false, true, some e, used', r.effects, [⟨n, used, used'⟩]⟩
                      | none =>
                        withCall ⟨n, used, used'⟩ (withEffects r.effects
                          (parseLoop o ex lines fuel (n + 1) used' r.status none))
                  else if cmdType = '!' then
                    let r := execShell o status body
                    if r.panicked then ⟨true, false, err, used', r.effects, [⟨n, used, used'⟩]⟩
                    else
                      match r.err with
                      | some e => ⟨false, true, some e, used', r.effects, [⟨n, used, used'⟩]⟩
                      | none =>
                        -- Runs AutoTrack; its failure is only logged, but the
                        -- named return `err` keeps the value.
                        match o.autoTrackErr with
                        | some e =>
                          withCall ⟨n, used, used'⟩ (withEffects
                            (r.effects ++ [Effect.autoTrack,
                              Effect.logError "goExec.AutoTrack failed"])
                            (parseLoop o ex lines fuel (n + 1) used' r.status (some e)))
                        | none =>
                          withCall ⟨n, used, used'⟩ (withEffects
                            (r.effects ++ [Effect.autoTrack])
                            (parseLoop o ex lines fuel (n + 1) used' r.status none))
                  else
                    withCall ⟨n, used, used'⟩
                      (parseLoop o ex lines fuel (n + 1) used' status err)
                else
                  withCall ⟨n, used, used'⟩
                    (parseLoop o ex lines fuel (n + 1) used' status err)
        else parseLoop o ex lines fuel (n + 1) used status err
    else ⟨false, false, err, used, [], []⟩

/-- `Parse` from `specialcmd.go`: scan the cell lines for special commands,
executing them when `execute` is set, and record the consumed line
indices in `usedLines` (starting from the caller-supplied set `used0`). -/
def Parse (o : Oracle) (execute : Bool) (codeLines : List String)
    (used0 : Finset ℕ) : ParseRes :=
  parseLoop o execute codeLines codeLines.length 0 used0 ⟨false, false⟩ none

/-- The `usedLines` scan of the `Parse` loop in isolation: the set of
line indices the loop consumes, following exactly the classification
branches of `parseLoop` but performing no execution.  Used to relate the
`execute = true` and `execute = false` runs. -/
def scanUsed (lines : List String) : ℕ → ℕ → Finset ℕ → Finset ℕ
  | 0, _, used => used
  | fuel + 1, n, used =>
    if h : n < lines.length then
      if n ∈ used then scanUsed lines fuel (n + 1) used
      else
        let cs := (lines.get ⟨n, h⟩).toList
        if 1 < cs.length ∧ (cs.head? = some '%' ∨ cs.head? = some '!') then
          match joinLine lines n used with
          | none => used
          | some (cmd, used') =>
            match cmd with
            | [] => used'
            | _ :: afterSigil =>
              match skipInitialSpace afterSigil with
              | none => used'
              | some _ => scanUsed lines fuel (n + 1) used'
        else scanUsed lines fuel (n + 1) used
    else used

/-- The command names of the `switch parts[0]` dispatch table of
`execInternal`. -/
def knownCommandNames : List String :=
  ["%", "main", "args", "env", "cd", "autoget", "noautoget", "help", "reset",
    "ls", "list", "rm", "remove", "with_inputs", "with_password", "track",
    "untrack", "goworkfix"]

/-- An oracle on which every external call succeeds. -/
def oracleOk : Oracle :=
  ⟨fun _ _ => none, "/home/user", id, fun _ => none, fun _ => none, none, none,
    none, false, true⟩

/-- An oracle on which shell commands succeed but `goExec.AutoTrack`
returns an error. -/
def oracleAutoTrackFails : Oracle :=
  ⟨fun _ _ => none, "/home/user", id, fun _ => none, fun _ => none,
    some (GoErr.msg "AutoTrack boom"), none, none, false, true⟩

/-!
### Source assembler (modelled from the spec)

The assembler (`createGoFileFromLines` of the `goexec` package) is not
part of the sources under review — only its test is — so it is modelled
from the design document, §4.4.
-/

/-- Modelled from the spec: the fixed preamble (package clause) emitted by
the source assembler; `createGoFileFromLines` itself is not among the
source files, only its test. -/
def preambleLines : List String := ["package main", ""]

/-- Modelled from the spec: the synthetic entry-point boilerplate that
replaces the entry-point marker line (`%%` or `%main`). -/
def entryPointBoilerplate : String := "func main() \x7b"

/-- Modelled from the spec: the small fixed epilogue closing any wrapper
opened for the entry point. -/
def epilogueLines : List String := ["\x7d", ""]

/-- Modelled from the spec: rendering of one cell line by the source
assembler.  A consumed (directive/shell) line is replaced by a blank
placeholder line — not removed — and the entry-point marker line is
replaced by the entry-point boilerplate. -/
def renderBodyLine (consumed : Finset ℕ) (i : ℕ) (line : String) : String :=
  if i ∈ consumed then ""
  else if line = "%%" ∨ line = "%main" then entryPointBoilerplate
  else line

/-- Modelled from the spec: the body part of the generated document, one
rendered line per cell line (dense, 1:1 with the cell numbering). -/
def renderBody (cellLines : List String) (consumed : Finset ℕ) : List String :=
  cellLines.enum.map fun p => renderBodyLine consumed p.1 p.2

/-- Modelled from the spec: the generated source document — preamble,
imports and declarations merged from the store (`storeLines`), the
rendered cell body, and the fixed epilogue.  `createGoFileFromLines` is
not among the source files; this follows §4.4 of the design document. -/
def assembleDocument (storeLines cellLines : List String) (consumed : Finset ℕ) :
    List String :=
  preambleLines ++ storeLines ++ renderBody cellLines consumed ++ epilogueLines

/-- Modelled from the spec: the overhead of the generated document over the
cell — it depends only on the preamble, the declaration store and the
epilogue, never on the cell's content. -/
def fixedOverhead (storeLines : List String) : ℕ :=
  preambleLines.length + storeLines.length + epilogueLines.length

/-- Scan invariant of the `Parse` loop at position `n`: the used set is
bounded by some `m`, and every index from `n` up to that bound is already
used (the scanner is still walking through the lines consumed by the last
multi-line command). -/
def ScanInv (n : ℕ) (used : Finset ℕ) : Prop :=
  ∃ m, used ⊆ Finset.range m ∧ ∀ j, n ≤ j → j < m → j ∈ used

/-- A well-formed `joinLine` call during a `Parse` pass: its starting line
was not yet used, and it added exactly a fresh contiguous block of line
indices starting at its starting line and staying inside the cell. -/
def GoodCall (lines : List String) (c : CallRec) : Prop :=
  c.start ∉ c.before ∧
    ∃ t, c.start < t ∧ t ≤ lines.length ∧
      c.after = c.before ∪ Finset.Ico c.start t ∧
      c.before ∩ Finset.Ico c.start t = ∅

/-! ### Basic lemmas about the embedding -/

@[simp] theorem withCall_panicked (c : CallRec) (r : ParseRes) :
    (withCall c r).panicked = r.panicked := rfl

@[simp] theorem withCall_aborted (c : CallRec) (r : ParseRes) :
    (withCall c r).aborted = r.aborted := rfl

@[simp] theorem withCall_err (c : CallRec) (r : ParseRes) :
    (withCall c r).err = r.err := rfl

@[simp] theorem withCall_used (c : CallRec) (r : ParseRes) :
    (withCall c r).used = r.used := rfl

@[simp] theorem withCall_effects (c : CallRec) (r : ParseRes) :
    (withCall c r).effects = r.effects := rfl

@[simp] theorem withCall_calls (c : CallRec) (r : ParseRes) :
    (withCall c r).calls = c :: r.calls := rfl

@[simp] theorem withEffects_panicked (es : List Effect) (r : ParseRes) :
    (withEffects es r).panicked = r.panicked := rfl

@[simp] theorem withEffects_aborted (es : List Effect) (r : ParseRes) :
    (withEffects es r).aborted = r.aborted := rfl

@[simp] theorem withEffects_err (es : List Effect) (r : ParseRes) :
    (withEffects es r).err = r.err := rfl

@[simp] theorem withEffects_used (es : List Effect) (r : ParseRes) :
    (withEffects es r).used = r.used := rfl

@[simp] theorem withEffects_effects (es : List Effect) (r : ParseRes) :
    (withEffects es r).effects = es ++ r.effects := rfl

@[simp] theorem withEffects_calls (es : List Effect) (r : ParseRes) :
    (withEffects es r).calls = r.calls := rfl

theorem string_toList_ne_nil {s : String} (h : s ≠ "") : s.toList ≠ [] := by
  intro hc
  apply h
  cases s with
  | mk data =>
    simp [String.toList] at hc
    simp [hc]

/-- The used set computed by the `joinLine` loop: it adds exactly the
contiguous block of indices `[idx, t)` for some `t` within the remaining
lines, and at least the starting index when lines remain. -/
theorem joinLineAux_used :
    ∀ (rest : List String) (idx : ℕ) (cmdStr s : List Char) (u u2 : Finset ℕ),
      joinLineAux rest idx cmdStr u = some (s, u2) →
      ∃ t, idx ≤ t ∧ t ≤ idx + rest.length ∧ u2 = u ∪ Finset.Ico idx t ∧
        (rest ≠ [] → idx < t) := by
  intro rest
  induction rest with
  | nil =>
    intro idx cmdStr s u u2 hsome
    simp only [joinLineAux, Option.some.injEq, Prod.mk.injEq] at hsome
    exact ⟨idx, le_rfl, by simp, by simp [← hsome.2], by simp⟩
  | cons l ls ih =>
    intro idx cmdStr s u u2 hsome
    simp only [joinLineAux] at hsome
    split at hsome
    · exact absurd hsome (by simp)
    · split at hsome
      · obtain ⟨t, h1, h2, h3, _⟩ := ih (idx + 1) _ s (insert idx u) u2 hsome
        refine ⟨t, by omega, by simp; omega, ?_, fun _ => by omega⟩
        rw [h3]
        ext x
        by_cases hx : x ∈ u
        · simp [hx]
        · simp only [Finset.mem_union, Finset.mem_insert, Finset.mem_Ico, hx,
            or_false, false_or]
          omega
      · simp only [Option.some.injEq, Prod.mk.injEq] at hsome
        refine ⟨idx + 1, by omega, by simp, ?_, fun _ => by omega⟩
        rw [← hsome.2]
        ext x
        by_cases hx : x ∈ u
        · simp [hx]
        · simp only [Finset.mem_union, Finset.mem_insert, Finset.mem_Ico, hx,
            or_false, false_or]
          omega

/-- The `joinLine` loop never hits the out-of-range access (modelled as
`none`) when the accumulated command is non-empty or the first remaining
line is non-empty. -/
theorem joinLineAux_total :
    ∀ (rest : List String) (idx : ℕ) (cmdStr : List Char) (u : Finset ℕ),
      cmdStr ≠ [] ∨ rest.headD "" ≠ "" →
      ∃ r, joinLineAux rest idx cmdStr u = some r := by
  intro rest
  induction rest with
  | nil => intro idx cmdStr u _; exact ⟨(cmdStr, u), rfl⟩
  | cons l ls ih =>
    intro idx cmdStr u hne
    have hne' : cmdStr ++ l.toList ≠ [] := by
      intro hc
      rcases List.append_eq_nil.mp hc with ⟨h1, h2⟩
      rcases hne with hne | hne
      · exact hne h1
      · exact string_toList_ne_nil (by simpa using hne) h2
    rcases hL : (cmdStr ++ l.toList).getLast? with _ | c
    · exact absurd (List.getLast?_eq_none_iff.mp hL) hne'
    · simp only [joinLineAux, hL]
      by_cases hc : c = '\\'
      · rw [if_pos hc]
        exact ih (idx + 1) _ (insert idx u) (Or.inl (by simp))
      · rw [if_neg hc]
        exact ⟨_, rfl⟩

/-- A successful `joinLine` call starting inside the cell consumes exactly
a contiguous non-empty block of line indices starting at `fromLine` and
contained in the cell. -/
theorem joinLine_eq_some_used {lines : List String} {fromLine : ℕ}
    {u : Finset ℕ} {s : List Char} {u2 : Finset ℕ}
    (hsome : joinLine lines fromLine u = some (s, u2))
    (h : fromLine < lines.length) :
    ∃ t, fromLine < t ∧ t ≤ lines.length ∧ u2 = u ∪ Finset.Ico fromLine t := by
  obtain ⟨t, h1, h2, h3, h4⟩ := joinLineAux_used _ _ _ _ _ _ hsome
  have hd : lines.drop fromLine ≠ [] := by
    apply List.ne_nil_of_length_pos
    rw [List.length_drop]
    omega
  have hlen : (lines.drop fromLine).length = lines.length - fromLine :=
    List.length_drop _ _
  refine ⟨t, h4 hd, ?_, h3⟩
  omega

/-- `joinLine` succeeds (no out-of-range access) whenever the starting
line is non-empty. -/
theorem joinLine_total {lines : List String} {fromLine : ℕ} (u : Finset ℕ)
    (h : fromLine < lines.length) (hne : lines.get ⟨fromLine, h⟩ ≠ "") :
    ∃ r, joinLine lines fromLine u = some r := by
  unfold joinLine
  apply joinLineAux_total
  right
  rw [List.drop_eq_getElem_cons h]
  simp only [List.headD_cons]
  simpa using hne

theorem scanInv_empty : ScanInv 0 (∅ : Finset ℕ) :=
  ⟨0, by simp, fun j _ hj => absurd hj (by omega)⟩

theorem scanInv_succ {n : ℕ} {used : Finset ℕ} (h : ScanInv n used) :
    ScanInv (n + 1) used := by
  obtain ⟨m, h1, h2⟩ := h
  exact ⟨m, h1, fun j hj hjm => h2 j (by omega) hjm⟩

theorem scanInv_bound {n : ℕ} {used : Finset ℕ} (h : ScanInv n used)
    (hn : n ∉ used) : ∀ i ∈ used, i < n := by
  obtain ⟨m, h1, h2⟩ := h
  intro i hi
  have him : i < m := Finset.mem_range.mp (h1 hi)
  by_contra hcon
  push_neg at hcon
  exact hn (h2 n le_rfl (by omega))

theorem scanInv_join {n t : ℕ} {used : Finset ℕ} (h : ScanInv n used)
    (hn : n ∉ used) (ht : n < t) :
    ScanInv (n + 1) (used ∪ Finset.Ico n t) := by
  refine ⟨t, ?_, ?_⟩
  · intro i hi
    rcases Finset.mem_union.mp hi with hi | hi
    · exact Finset.mem_range.mpr (by have := scanInv_bound h hn i hi; omega)
    · exact Finset.mem_range.mpr (Finset.mem_Ico.mp hi).2
  · intro j hj hjt
    exact Finset.mem_union_right _ (Finset.mem_Ico.mpr ⟨by omega, hjt⟩)

theorem goodCall_of {lines : List String} {n t : ℕ} {used : Finset ℕ}
    (h : ScanInv n used) (hn : n ∉ used) (ht : n < t) (htL : t ≤ lines.length) :
    GoodCall lines ⟨n, used, used ∪ Finset.Ico n t⟩ := by
  refine ⟨hn, t, ht, htL, rfl, ?_⟩
  ext x
  simp only [Finset.mem_inter, Finset.mem_Ico, Finset.not_mem_empty, iff_false,
    not_and]
  intro hx
  have := scanInv_bound h hn x hx
  omega

/-- Every `joinLine` call performed by the `Parse` loop, when started in a
state satisfying the scan invariant, is well formed. -/
theorem parseLoop_calls_good (o : Oracle) (ex : Bool) (lines : List String) :
    ∀ (fuel n : ℕ) (used : Finset ℕ) (status : CellStatus) (err : Option GoErr),
      ScanInv n used →
      ∀ c ∈ (parseLoop o ex lines fuel n used status err).calls, GoodCall lines c := by
  intro fuel
  induction fuel with
  | zero =>
    intro n used status err _ c hc
    simp [parseLoop] at hc
  | succ fuel ih =>
    intro n used status err hInv c hc
    simp only [parseLoop] at hc
    split at hc
    · split at hc
      · exact ih _ _ _ _ (scanInv_succ hInv) c hc
      · rename_i h hmem
        split at hc
        · rename_i hsig
          split at hc
          · simp at hc
          · rename_i cmd used2 hjoin
            obtain ⟨t, hnt, htL, hu2⟩ := joinLine_eq_some_used hjoin h
            subst hu2
            have hGood : GoodCall lines ⟨n, used, used ∪ Finset.Ico n t⟩ :=
              goodCall_of hInv hmem hnt htL
            have hInv' : ScanInv (n + 1) (used ∪ Finset.Ico n t) :=
              scanInv_join hInv hmem hnt
            repeat' split at hc
            all_goals
              simp only [withCall_calls, withEffects_calls, List.mem_cons,
                List.mem_singleton, List.not_mem_nil, or_false] at hc
            all_goals
              first
              | exact hc.elim
              | (rcases hc with rfl | hc
                 · exact hGood
                 · exact ih _ _ _ _ hInv' c hc)
              | (rcases hc with rfl; exact hGood)
        · exact ih _ _ _ _ (scanInv_succ hInv) c hc
    · simp at hc

/-- With `execute = false` the `Parse` loop produces no effects at all:
its only side effect is filling `usedLines`. -/
theorem parseLoop_false_effects (o : Oracle) (lines : List String) :
    ∀ (fuel n : ℕ) (used : Finset ℕ) (status : CellStatus) (err : Option GoErr),
      (parseLoop o false lines fuel n used status err).effects = [] := by
  intro fuel
  induction fuel with
  | zero => intro n used status err; simp [parseLoop]
  | succ fuel ih =>
    intro n used status err
    simp only [parseLoop]
    repeat' split
    all_goals
      first
      | exact ih _ _ _ _
      | exact absurd (by assumption : false = true) (by simp)
      | exact absurd rfl (by assumption : ¬true = true)
      | (simp [ih]; done)
      | (simp_all [ih]; done)

/-- The `execute = false` run consumes exactly the lines computed by the
pure scan. -/
theorem parseLoop_false_used (o : Oracle) (lines : List String) :
    ∀ (fuel n : ℕ) (used : Finset ℕ) (status : CellStatus) (err : Option GoErr),
      (parseLoop o false lines fuel n used status err).used =
        scanUsed lines fuel n used := by
  intro fuel
  induction fuel with
  | zero => intro n used status err; simp [parseLoop, scanUsed]
  | succ fuel ih =>
    intro n used status err
    simp only [parseLoop, scanUsed]
    repeat' split
    all_goals
      first
      | exact ih _ _ _ _
      | exact absurd (by assumption : false = true) (by simp)
      | exact absurd rfl (by assumption : ¬true = true)
      | (simp [ih]; done)
      | (simp_all [ih]; done)

/-- The `execute = true` run either panics, or returns early on a
directive error, or consumes exactly the lines computed by the pure
scan. -/
theorem parseLoop_true_used (o : Oracle) (lines : List String) :
    ∀ (fuel n : ℕ) (used : Finset ℕ) (status : CellStatus) (err : Option GoErr),
      (parseLoop o true lines fuel n used status err).panicked = true ∨
      (parseLoop o true lines fuel n used status err).aborted = true ∨
      (parseLoop o true lines fuel n used status err).used =
        scanUsed lines fuel n used := by
  intro fuel
  induction fuel with
  | zero => intro n used status err; simp [parseLoop, scanUsed]
  | succ fuel ih =>
    intro n used status err
    simp only [parseLoop, scanUsed]
    repeat' split
    all_goals
      try simp only [withCall_panicked, withCall_aborted, withCall_used,
        withEffects_panicked, withEffects_aborted, withEffects_used,
        ParseRes.panicked, ParseRes.aborted, ParseRes.used]
    all_goals
      first
      | exact ih _ _ _ _
      | exact absurd (by assumption : false = true) (by simp)
      | exact absurd rfl (by assumption : ¬true = true)
      | (simp; done)
      | (simp_all; done)

/-- As long as the `execute = true` run neither panics nor returns early on
a directive error, the `Parse` loop computes the same `usedLines` set as
the `execute = false` run, whatever the statuses and the pending `err`
values are. -/
theorem parseLoop_used_lockstep (o : Oracle) (lines : List String)
    (fuel n : ℕ) (used : Finset ℕ) (st1 st2 : CellStatus) (e1 e2 : Option GoErr)
    (hp : (parseLoop o true lines fuel n used st1 e1).panicked = false)
    (ha : (parseLoop o true lines fuel n used st1 e1).aborted = false) :
    (parseLoop o true lines fuel n used st1 e1).used =
      (parseLoop o false lines fuel n used st2 e2).used := by
  rcases parseLoop_true_used o lines fuel n used st1 e1 with h | h | h
  · rw [hp] at h; exact absurd h (by simp)
  · rw [ha] at h; exact absurd h (by simp)
  · rw [h, parseLoop_false_used]

/-! ### The claims -/

/-- C1: `splitCmd` on the input `--msg="hello world"` followed by a space,
a tab and a newline, then `--msg2="it replied \"\nhello\t\""`, two spaces
and a lone double quote, returns exactly three parts: `--msg=hello world`,
then `--msg2=it replied "` + newline + `hello` + tab + `"`, and the empty
string. -/
theorem claim1_splitCmd_quote_escape :
    splitCmd "--msg=\"hello world\" \t\n--msg2=\"it replied \\\"\\nhello\\t\\\"\"  \"" =
      ["--msg=hello world", "--msg2=it replied \"\nhello\t\"", ""] := by
  decide

/-- C2: `joinLine` on the line list `["a", "b c\", "d\", "e", "f"]` (single
trailing backslashes) with `fromLine = 1` returns `"b c d e"` and inserts
exactly the indices 1, 2 and 3 into the `usedLines` set. -/
theorem claim2_joinLine_continuation :
    joinLine ["a", "b c\\", "d\\", "e", "f"] 1 ∅ =
      some ("b c d e".toList, {1, 2, 3}) := by
  have h : ({1, 2, 3} : Finset ℕ) = insert 3 (insert 2 (insert 1 ∅)) := by
    ext x
    simp only [Finset.mem_insert, Finset.mem_singleton, Finset.not_mem_empty,
      or_false]
    tauto
  rw [h]
  rfl

/-- C3: for every cell, the assembled document has exactly as many lines as
the cell plus an overhead that depends only on the preamble, the
declaration store and the epilogue — never on the cell's content and in
particular not on how many directive/shell lines were stripped, since
stripped lines are replaced by blank placeholder lines, not removed. -/
theorem claim3_assembled_line_count (storeLines cellLines : List String)
    (consumed : Finset ℕ) :
    (assembleDocument storeLines cellLines consumed).length =
      cellLines.length + fixedOverhead storeLines := by
  simp only [assembleDocument, renderBody, fixedOverhead, List.length_append,
    List.length_map, List.enum_length]
  omega

/-- C4: evaluation at the failing input of the claim that directive syntax
errors are reported and scanning continues.  On the cell
`["%env FOO", "%ls"]` the malformed `%env` makes `execInternal` return an
error; `Parse` returns it immediately (`aborted`), so line 1 is never
scanned — contradicting the claim (and `execInternal`'s own comment that
syntax errors are not returned). -/
theorem claim4_env_bad_argcount_aborts :
    (Parse oracleOk true ["%env FOO", "%ls"] ∅).aborted = true ∧
    (Parse oracleOk true ["%env FOO", "%ls"] ∅).err =
      some (GoErr.msg "%env takes 2 arguments, but 1 were given") ∧
    (Parse oracleOk true ["%env FOO", "%ls"] ∅).used = {0} :=
  ⟨rfl, rfl, rfl⟩

/-- C5: evaluation at the failing input of the claim that an
`goExec.AutoTrack` failure after a successful `!` command is only logged.
It is logged, but the named return `err` keeps the AutoTrack error, so
`Parse` returns it (non-nil) even though everything else succeeded —
contradicting the claim. -/
theorem claim5_autotrack_failure_returned :
    (Parse oracleAutoTrackFails true ["!ls"] ∅).err =
      some (GoErr.msg "AutoTrack boom") ∧
    (Parse oracleAutoTrackFails true ["!ls"] ∅).aborted = false ∧
    (Parse oracleAutoTrackFails true ["!ls"] ∅).panicked = false ∧
    Effect.logError "goExec.AutoTrack failed" ∈
      (Parse oracleAutoTrackFails true ["!ls"] ∅).effects := by
  decide

/-- C6: evaluation at the failing input of the claim that a sigil followed
only by whitespace is silently ignored.  On the cell `["% "]` the
space-skipping loop empties the command and then evaluates `cmdStr[0]`,
an out-of-range access (a Go panic), with either value of `execute` —
the `len(cmdStr) == 0` check is never reached. -/
theorem claim6_whitespace_directive_panics :
    (Parse oracleOk true ["% "] ∅).panicked = true ∧
    (Parse oracleOk false ["% "] ∅).panicked = true := by
  decide

/-- C7: during a single `Parse` pass (over any cell, any oracle, either
value of `execute`), every `joinLine` call starts at a line not yet in
`usedLines` and adds exactly a fresh contiguous block of indices starting
at its starting line and lying inside the cell: no line is classified or
consumed twice. -/
theorem claim7_no_line_classified_twice (o : Oracle) (ex : Bool)
    (lines : List String) (c : CallRec)
    (hc : c ∈ (Parse o ex lines ∅).calls) : GoodCall lines c :=
  parseLoop_calls_good o ex lines lines.length 0 ∅ ⟨false, false⟩ none
    scanInv_empty c hc

/-- Witness for C7 at the concrete cell `["%a"]`. -/
theorem claim7_witness :
    (⟨0, ∅, {0}⟩ : CallRec) ∈ (Parse oracleOk true ["%a"] ∅).calls ∧
      GoodCall ["%a"] ⟨0, ∅, {0}⟩ :=
  ⟨List.Mem.head _,
    claim7_no_line_classified_twice oracleOk true ["%a"] _ (List.Mem.head _)⟩

/-- C8: for every `%`-directive whose command name is not in the dispatch
table, `execInternal` reports an "unknown or not implemented" message on
the error stream and returns a nil error, so an unknown directive never
fails the run. -/
theorem claim8_unknown_directive_not_failing (o : Oracle) (status : CellStatus)
    (cmdStr p0 : String) (rest : List String)
    (hsplit : splitCmd cmdStr = p0 :: rest) (hunk : p0 ∉ knownCommandNames) :
    (execInternal o status cmdStr).err = none ∧
    (execInternal o status cmdStr).panicked = false ∧
    Effect.publishStderr (quoteGo ("%" ++ p0) ++ " unknown or not implemented yet.") ∈
      (execInternal o status cmdStr).effects := by
  have h : execInternal o status cmdStr = execInternalParts o status (p0 :: rest) := by
    rw [execInternal, hsplit]
  rw [h]
  simp only [knownCommandNames, List.mem_cons, List.not_mem_nil, or_false,
    not_or] at hunk
  obtain ⟨h1, h2, h3, h4, h5, h6, h7, h8, h9, h10, h11, h12, h13, h14, h15,
    h16, h17, h18⟩ := hunk
  simp [execInternalParts, h1, h2, h3, h4, h5, h6, h7, h8, h9, h10, h11, h12,
    h13, h14, h15, h16, h17, h18]

/-- Witness for C8 at the concrete directive `foo bar`. -/
theorem claim8_witness :
    splitCmd "foo bar" = "foo" :: ["bar"] ∧ "foo" ∉ knownCommandNames ∧
      ((execInternal oracleOk ⟨false, false⟩ "foo bar").err = none ∧
        (execInternal oracleOk ⟨false, false⟩ "foo bar").panicked = false ∧
        Effect.publishStderr (quoteGo ("%" ++ "foo") ++ " unknown or not implemented yet.") ∈
          (execInternal oracleOk ⟨false, false⟩ "foo bar").effects) :=
  ⟨by decide, by decide,
    claim8_unknown_directive_not_failing oracleOk ⟨false, false⟩ "foo bar" "foo"
      ["bar"] (by decide) (by decide)⟩

/-- C9: whenever the starting line is non-empty, `joinLine` terminates with
no out-of-range access (the accumulated command is non-empty at every
point where its last byte is inspected, so the result is `some`), and the
indices it inserts into `usedLines` are exactly a block inside
`[fromLine, lines.length)`. -/
theorem claim9_joinLine_safe (lines : List String) (fromLine : ℕ)
    (used : Finset ℕ) (h : fromLine < lines.length)
    (hne : lines.get ⟨fromLine, h⟩ ≠ "") :
    ∃ s u2 t, joinLine lines fromLine used = some (s, u2) ∧
      u2 = used ∪ Finset.Ico fromLine t ∧ fromLine < t ∧ t ≤ lines.length := by
  obtain ⟨⟨s, u2⟩, hr⟩ := joinLine_total used h hne
  obtain ⟨t, h1, h2, h3⟩ := joinLine_eq_some_used hr h
  exact ⟨s, u2, t, hr, h3, h1, h2⟩

/-- Witness for C9 at the concrete line list `["ab"]`. -/
theorem claim9_witness :
    ∃ s u2 t, joinLine ["ab"] 0 ∅ = some (s, u2) ∧
      u2 = ∅ ∪ Finset.Ico 0 t ∧ 0 < t ∧ t ≤ (["ab"] : List String).length :=
  claim9_joinLine_safe ["ab"] 0 ∅ (by decide) (by decide)

/-- C10 counterexample: on the cell `["%\t", "%x"]` no executed directive
returns an error (`aborted = false`, final `err = none`), yet the
`usedLines` sets of the `execute = true` and `execute = false` runs
differ: with `execute = true` the `%`+tab line makes `splitCmd` return no
parts and `parts[0]` is an out-of-range access, stopping the scan before
line 1. -/
theorem claim10_counterexample :
    (Parse oracleOk true ["%\t", "%x"] ∅).aborted = false ∧
    (Parse oracleOk true ["%\t", "%x"] ∅).err = none ∧
    (Parse oracleOk true ["%\t", "%x"] ∅).used ≠
      (Parse oracleOk false ["%\t", "%x"] ∅).used := by
  refine ⟨rfl, rfl, fun hEq => ?_⟩
  have h1 : (1 : ℕ) ∈ (Parse oracleOk false ["%\t", "%x"] ∅).used := by decide
  rw [← hEq] at h1
  exact absurd h1 (by decide)

/-- C10 (amended): provided the `execute = true` run neither panics nor
returns early on a directive error, the `usedLines` set produced by
`Parse` is the same with `execute = true` and `execute = false`; and with
`execute = false`, `Parse` performs no side effects at all beyond filling
`usedLines`. -/
theorem claim10_no_exec_side_effects (o : Oracle) (lines : List String)
    (hp : (Parse o true lines ∅).panicked = false)
    (ha : (Parse o true lines ∅).aborted = false) :
    (Parse o true lines ∅).used = (Parse o false lines ∅).used ∧
      (Parse o false lines ∅).effects = [] :=
  ⟨parseLoop_used_lockstep o lines lines.length 0 ∅ ⟨false, false⟩
      ⟨false, false⟩ none none hp ha,
    parseLoop_false_effects o lines lines.length 0 ∅ ⟨false, false⟩ none⟩

/-- Witness for the amended C10 at the concrete cell `["%args x"]`. -/
theorem claim10_witness :
    (Parse oracleOk true ["%args x"] ∅).panicked = false ∧
      (Parse oracleOk true ["%args x"] ∅).aborted = false ∧
      ((Parse oracleOk true ["%args x"] ∅).used =
          (Parse oracleOk false ["%args x"] ∅).used ∧
        (Parse oracleOk false ["%args x"] ∅).effects = []) :=
  ⟨by decide, by decide,
    claim10_no_exec_side_effects oracleOk ["%args x"] (by decide) (by decide)⟩

end Gonb
